import Mathlib

/-!
Verification of the codex-action argument translator and process runner.

The repository contains three variants of the Codex parameter builder
(the shared modes builder `src/modes/shared/codex-builder.ts` and two
further revisions of the same module) together with the base-action
runner `run-codex.ts`.  Each variant is embedded faithfully below in its
own namespace:

* `SharedCodexBuilder` — `src/modes/shared/codex-builder.ts`
* `CodexBuilderV0`     — the revision that emits one env assignment per key
* `CodexBuilderV1`     — the revision with exec-option extraction,
  `--full-auto`, single-quoted TOML values and a trailing prompt token
* `RunCodex`           — `base-action/src/run-codex.ts`

JavaScript platform behaviour used by the source (string truthiness,
`String.prototype.trim`, `split`, `startsWith`, `includes`, template
interpolation via `String(value)`, `JSON.parse` / `JSON.stringify`, the
`shell-quote` tokenizer) is modelled explicitly.  JSON numbers are
modelled as integers (the configuration schema only uses integer
timeouts).  The tokenizer model covers word splitting, single/double
quotes, backslash escapes, control operators and comments; operator and
comment tokens are removed by the same string filter the source applies.
Glob classification and variable substitution are not modelled: every
re-tokenization statement below restricts its tokens to a character
whitelist on which the library performs plain word splitting only.
-/

/-- Whitespace recognised by the word splitter and by `trim`. -/
def isSpaceChar (c : Char) : Bool :=
  c = ' ' ∨ c = '\t' ∨ c = '\n' ∨ c = '\r' ∨ c = '\x0b' ∨ c = '\x0c'

/-- Model of `String.prototype.trim`. -/
def jsTrim (s : String) : String :=
  String.mk (((s.data.dropWhile isSpaceChar).reverse.dropWhile isSpaceChar).reverse)

/-- Model of `Array.prototype.join(sep)`. -/
def jsJoin (sep : String) : List String → String
  | [] => ""
  | [a] => a
  | a :: b :: t => a ++ sep ++ jsJoin sep (b :: t)

/-- Substring test on char lists, modelling `String.prototype.includes`. -/
def charsHaveInfix (l pat : List Char) : Bool :=
  if pat.isPrefixOf l then true
  else match l with
    | [] => false
    | _ :: t => charsHaveInfix t pat

/-- Model of `String.prototype.includes`. -/
def jsIncludes (s pat : String) : Bool :=
  charsHaveInfix s.data pat.data

/-- Model of `String.prototype.startsWith` (char-list based so that the
kernel can evaluate it). -/
def jsStartsWith (s pat : String) : Bool :=
  pat.data.isPrefixOf s.data

/-- Split on a single-character separator, JavaScript `split` semantics
(an empty string yields one empty piece). -/
def splitCharAux (sep : Char) : List Char → List Char → List String
  | [], cur => [String.mk cur]
  | c :: rest, cur =>
    if c = sep then String.mk cur :: splitCharAux sep rest []
    else splitCharAux sep rest (cur ++ [c])

/-- Model of `String.prototype.split(",")`. -/
def jsSplitComma (s : String) : List String :=
  splitCharAux ',' s.data []

/-- Entries produced by the `shell-quote` parser: plain strings,
control-operator objects and comment objects.  The source keeps only the
strings (`typeof arg === "string"`). -/
inductive ShellToken where
  | str (s : String)
  | op (s : String)
  | comment (s : String)

/-- Shell control-operator characters recognized outside quotes. -/
def opChar (c : Char) : Bool :=
  c == ';' || c == '&' || c == '|' || c == '<' || c == '>' || c == '(' || c == ')'

/-- Tokenizer state for the `shell-quote` model: between words, inside a
word, inside an operator run, inside single quotes, inside double
quotes. -/
inductive TokState where
  | ready
  | word
  | opRun
  | sq
  | dq
deriving DecidableEq

/-- Core of the shell tokenizer: `st` is the current state, the first
list is the remaining input, `cur` the characters of the entry being
built.  A maximal run of operator characters is kept as one operator
entry (the library may split a run into several operators; the string
filter removes both the same way), and an unquoted `#` opening a word
turns the rest of the input into a comment entry. -/
def tokAux : TokState → List Char → List Char → List ShellToken
  | .ready, [], _ => []
  | .word, [], cur => [.str (String.mk cur)]
  | .opRun, [], cur => [.op (String.mk cur)]
  | .sq, [], cur => [.str (String.mk cur)]
  | .dq, [], cur => [.str (String.mk cur)]
  | .ready, c :: rest, cur =>
    if isSpaceChar c then tokAux .ready rest cur
    else if c = '#' then [.comment (String.mk rest)]
    else if opChar c then tokAux .opRun rest [c]
    else if c = '\'' then tokAux .sq rest []
    else if c = '"' then tokAux .dq rest []
    else if c = '\\' then
      match rest with
      | [] => tokAux .word [] ['\\']
      | d :: rest2 => tokAux .word rest2 [d]
    else tokAux .word rest [c]
  | .word, c :: rest, cur =>
    if isSpaceChar c then .str (String.mk cur) :: tokAux .ready rest []
    else if opChar c then .str (String.mk cur) :: tokAux .opRun rest [c]
    else if c = '\'' then tokAux .sq rest cur
    else if c = '"' then tokAux .dq rest cur
    else if c = '\\' then
      match rest with
      | [] => tokAux .word [] (cur ++ ['\\'])
      | d :: rest2 => tokAux .word rest2 (cur ++ [d])
    else tokAux .word rest (cur ++ [c])
  | .opRun, c :: rest, cur =>
    if opChar c then tokAux .opRun rest (cur ++ [c])
    else if isSpaceChar c then .op (String.mk cur) :: tokAux .ready rest []
    else if c = '#' then [.op (String.mk cur), .comment (String.mk rest)]
    else if c = '\'' then .op (String.mk cur) :: tokAux .sq rest []
    else if c = '"' then .op (String.mk cur) :: tokAux .dq rest []
    else if c = '\\' then
      match rest with
      | [] => .op (String.mk cur) :: tokAux .word [] ['\\']
      | d :: rest2 => .op (String.mk cur) :: tokAux .word rest2 [d]
    else .op (String.mk cur) :: tokAux .word rest [c]
  | .sq, c :: rest, cur =>
    if c = '\'' then tokAux .word rest cur
    else tokAux .sq rest (cur ++ [c])
  | .dq, c :: rest, cur =>
    if c = '"' then tokAux .word rest cur
    else if c = '\\' then
      match rest with
      | [] => tokAux .dq [] (cur ++ ['\\'])
      | d :: rest2 =>
        if d = '"' ∨ d = '\\' ∨ d = '$' ∨ d = '\x60' then tokAux .dq rest2 (cur ++ [d])
        else tokAux .dq rest2 (cur ++ ['\\', d])
    else tokAux .dq rest (cur ++ [c])

/-- The string projection of a parse result, modelling the source's
`filter((arg): arg is string => typeof arg === "string")`. -/
def shellStrings (l : List ShellToken) : List String :=
  l.filterMap (fun t =>
    match t with
    | .str s => some s
    | _ => none)

/-- Model of `parse` from the `shell-quote` package followed by the
source's string filter.  Glob classification and variable substitution
are not modelled; the re-tokenization statements below only concern
tokens from the `plainChar` whitelist, on which the library performs
plain word splitting. -/
def parseShellArgs (s : String) : List String :=
  shellStrings (tokAux .ready s.data [])

mutual

/-- JSON values as produced by `JSON.parse`.  Numbers are modelled as
integers (the configuration schema only uses integer timeouts).  Arrays
and objects carry their children through the mutual types `JsonItems`
and `JsonMembers` so that all recursion over values is structural. -/
inductive JsonValue where
  | null
  | bool (b : Bool)
  | num (n : Int)
  | str (s : String)
  | arr (xs : JsonItems)
  | obj (fields : JsonMembers)

inductive JsonItems where
  | nil
  | cons (v : JsonValue) (t : JsonItems)

inductive JsonMembers where
  | nil
  | cons (k : String) (v : JsonValue) (t : JsonMembers)

end

/-- The items of a JSON array as an ordinary list. -/
def JsonItems.toList : JsonItems → List JsonValue
  | .nil => []
  | .cons v t => v :: t.toList

/-- Array items from an ordinary list. -/
def JsonItems.ofList : List JsonValue → JsonItems
  | [] => .nil
  | v :: t => .cons v (JsonItems.ofList t)

/-- The members of a JSON object as an ordinary association list. -/
def JsonMembers.toList : JsonMembers → List (String × JsonValue)
  | .nil => []
  | .cons k v t => (k, v) :: t.toList

/-- Object members from an ordinary association list. -/
def JsonMembers.ofList : List (String × JsonValue) → JsonMembers
  | [] => .nil
  | (k, v) :: t => .cons k v (JsonMembers.ofList t)

/-- JavaScript truthiness of a JSON value. -/
def JsonValue.truthy : JsonValue → Bool
  | .null => false
  | .bool b => b
  | .num n => n ≠ 0
  | .str s => s ≠ ""
  | .arr _ => true
  | .obj _ => true

/-- Truthiness of an optional JSON value (`undefined` is falsy). -/
def jsTruthy : Option JsonValue → Bool
  | none => false
  | some v => v.truthy

/-- Field lookup inside an object (first binding wins). -/
def fieldLookup : JsonMembers → String → Option JsonValue
  | .nil, _ => none
  | .cons k' v t, k => if k' = k then some v else fieldLookup t k

/-- Property access `v[k]`: defined field lookup on objects, `undefined`
otherwise. -/
def jsGet : JsonValue → String → Option JsonValue
  | .obj fields, k => fieldLookup fields k
  | _, _ => none

/-- Index/value pairs of `Object.entries` on an array. -/
def entriesIndexed : Nat → List JsonValue → List (String × JsonValue)
  | _, [] => []
  | i, v :: t => (toString i, v) :: entriesIndexed (i + 1) t

/-- Model of `Object.entries`. -/
def jsEntries : JsonValue → List (String × JsonValue)
  | .obj fields => fields.toList
  | .arr xs => entriesIndexed 0 xs.toList
  | .str s => entriesIndexed 0 (s.data.map (fun c => .str (String.mk [c])))
  | _ => []

/-- `typeof v === "object"` (true for objects, arrays and `null`). -/
def jsIsObjectType : JsonValue → Bool
  | .obj _ => true
  | .arr _ => true
  | .null => true
  | _ => false

/-- `Array.isArray`. -/
def jsIsArray : JsonValue → Bool
  | .arr _ => true
  | _ => false

mutual

/-- Model of JavaScript `String(value)` / template interpolation. -/
def jsToString : JsonValue → String
  | .null => "null"
  | .bool true => "true"
  | .bool false => "false"
  | .num n => toString n
  | .str s => s
  | .arr xs => jsJoinToString xs
  | .obj _ => "[object Object]"
termination_by structural v => v

/-- `Array.prototype.toString` joins elements with commas, rendering
`null` elements as the empty string. -/
def jsJoinToString : JsonItems → String
  | .nil => ""
  | .cons .null .nil => ""
  | .cons x .nil => jsToString x
  | .cons .null (.cons y t) => "," ++ jsJoinToString (.cons y t)
  | .cons x (.cons y t) => jsToString x ++ "," ++ jsJoinToString (.cons y t)
termination_by structural xs => xs

end

/-- Lowercase hexadecimal digit. -/
def hexDigit (n : Nat) : Char :=
  if n < 10 then Char.ofNat (48 + n) else Char.ofNat (87 + n)

/-- Escaping of one character inside a `JSON.stringify` string literal. -/
def escJsonChar (c : Char) : List Char :=
  if c = '"' then ['\\', '"']
  else if c = '\\' then ['\\', '\\']
  else if c = '\n' then ['\\', 'n']
  else if c = '\r' then ['\\', 'r']
  else if c = '\t' then ['\\', 't']
  else if c = '\x08' then ['\\', 'b']
  else if c = '\x0c' then ['\\', 'f']
  else if c.toNat < 32 then
    ['\\', 'u', '0', '0', hexDigit (c.toNat / 16), hexDigit (c.toNat % 16)]
  else [c]

/-- The escaped body of a `JSON.stringify` string literal. -/
def escJsonList (l : List Char) : List Char :=
  l.flatMap escJsonChar

mutual

/-- Model of `JSON.stringify` (no indentation argument). -/
def jsonStringify : JsonValue → String
  | .null => "null"
  | .bool true => "true"
  | .bool false => "false"
  | .num n => toString n
  | .str s => "\"" ++ String.mk (escJsonList s.data) ++ "\""
  | .arr xs => "[" ++ jsonStringifyItems xs ++ "]"
  | .obj fields => "\x7b" ++ jsonStringifyFields fields ++ "\x7d"
termination_by structural v => v

/-- Comma-separated `JSON.stringify` renderings of array items. -/
def jsonStringifyItems : JsonItems → String
  | .nil => ""
  | .cons x .nil => jsonStringify x
  | .cons x (.cons y t) => jsonStringify x ++ "," ++ jsonStringifyItems (.cons y t)
termination_by structural xs => xs

/-- Comma-separated `JSON.stringify` renderings of object members. -/
def jsonStringifyFields : JsonMembers → String
  | .nil => ""
  | .cons k v .nil => "\"" ++ String.mk (escJsonList k.data) ++ "\":" ++ jsonStringify v
  | .cons k v (.cons k2 v2 t) =>
    "\"" ++ String.mk (escJsonList k.data) ++ "\":" ++ jsonStringify v ++ "," ++
      jsonStringifyFields (.cons k2 v2 t)
termination_by structural fields => fields

end

/-- Value of one hexadecimal digit character. -/
def unHexChar (c : Char) : Option Nat :=
  if '0' ≤ c ∧ c ≤ '9' then some (c.toNat - 48)
  else if 'a' ≤ c ∧ c ≤ 'f' then some (c.toNat - 87)
  else if 'A' ≤ c ∧ c ≤ 'F' then some (c.toNat - 55)
  else none

/-- Decoding of a single-character JSON escape. -/
def unEscChar (e : Char) : Option Char :=
  if e = 'n' then some '\n'
  else if e = 't' then some '\t'
  else if e = 'r' then some '\r'
  else if e = 'b' then some '\x08'
  else if e = 'f' then some '\x0c'
  else if e = '"' then some '"'
  else if e = '/' then some '/'
  else if e = '\\' then some '\\'
  else none

/-- Reads the body of a JSON string literal up to its closing quote,
returning the decoded characters and the remaining input. -/
def parseStrBody : List Char → Option (List Char × List Char)
  | [] => none
  | c :: rest =>
    if c = '"' then some ([], rest)
    else if c = '\\' then
      match rest with
      | [] => none
      | e :: r =>
        if e = 'u' then
          match r with
          | h1 :: h2 :: h3 :: h4 :: r2 =>
            match unHexChar h1, unHexChar h2, unHexChar h3, unHexChar h4 with
            | some a, some b, some c2, some d =>
              (parseStrBody r2).map
                (fun p => (Char.ofNat (((a * 16 + b) * 16 + c2) * 16 + d) :: p.1, p.2))
            | _, _, _, _ => none
          | _ => none
        else
          match unEscChar e with
          | some c2 => (parseStrBody r).map (fun p => (c2 :: p.1, p.2))
          | none => none
    else (parseStrBody rest).map (fun p => (c :: p.1, p.2))

/-- Items of a JSON array of strings after the opening bracket
(fueled recursion; the fuel bounds the number of items). -/
def parseStrArrItems : Nat → List Char → Option (List String)
  | 0, _ => none
  | fuel + 1, '"' :: body =>
    match parseStrBody body with
    | some (s, ',' :: r2) => (parseStrArrItems fuel r2).map (fun t => String.mk s :: t)
    | some (s, [']']) => some [String.mk s]
    | _ => none
  | _ + 1, _ => none

/-- Decoder for a JSON array of strings: the witness that the emitted
`args` assignment value round-trips as a JSON array. -/
def parseStrArr (s : String) : Option (List String) :=
  match s.data with
  | '[' :: rest => if rest = [']'] then some [] else parseStrArrItems rest.length rest
  | _ => none

/-- JSON whitespace. -/
def jsonWsChar (c : Char) : Bool :=
  c = ' ' ∨ c = '\t' ∨ c = '\n' ∨ c = '\r'

/-- Skip JSON whitespace. -/
def skipJsonWs (l : List Char) : List Char :=
  l.dropWhile jsonWsChar

/-- `JSON.parse` object semantics: a duplicated key keeps its first
position but takes the last value. -/
def insertField (fields : List (String × JsonValue)) (k : String) (v : JsonValue) :
    List (String × JsonValue) :=
  if fields.any (fun kv => kv.1 = k) then
    fields.map (fun kv => if kv.1 = k then (k, v) else kv)
  else fields ++ [(k, v)]

/-- Resolve duplicate keys of a parsed member list. -/
def dedupeFields (fields : List (String × JsonValue)) : List (String × JsonValue) :=
  fields.foldl (fun acc kv => insertField acc kv.1 kv.2) []

/-- Reads a run of decimal digits. -/
def digitsAux : List Char → Nat → Nat × List Char
  | [], acc => (acc, [])
  | c :: rest, acc =>
    if c.isDigit then digitsAux rest (acc * 10 + (c.toNat - 48)) else (acc, c :: rest)

/-- Reads a nonempty run of decimal digits. -/
def parseDigits : List Char → Option (Nat × List Char)
  | [] => none
  | c :: rest => if c.isDigit then some (digitsAux (c :: rest) 0) else none

mutual

/-- Fueled model of `JSON.parse` on one value (integer numerals only). -/
def parseJsonVal : Nat → List Char → Option (JsonValue × List Char)
  | 0, _ => none
  | fuel + 1, l =>
    match skipJsonWs l with
    | [] => none
    | '"' :: rest => (parseStrBody rest).map (fun p => (.str (String.mk p.1), p.2))
    | 't' :: 'r' :: 'u' :: 'e' :: rest => some (.bool true, rest)
    | 'f' :: 'a' :: 'l' :: 's' :: 'e' :: rest => some (.bool false, rest)
    | 'n' :: 'u' :: 'l' :: 'l' :: rest => some (.null, rest)
    | '[' :: rest =>
      match skipJsonWs rest with
      | ']' :: r2 => some (.arr .nil, r2)
      | r => (parseJsonItems fuel r).map (fun p => (.arr (JsonItems.ofList p.1), p.2))
    | '\x7b' :: rest =>
      match skipJsonWs rest with
      | '\x7d' :: r2 => some (.obj .nil, r2)
      | r => (parseJsonMembers fuel r).map (fun p => (.obj (JsonMembers.ofList (dedupeFields p.1)), p.2))
    | '-' :: rest =>
      match parseDigits rest with
      | some (n, r2) => some (.num (-(n : Int)), r2)
      | none => none
    | c :: rest =>
      if c.isDigit then
        match parseDigits (c :: rest) with
        | some (n, r2) => some (.num (n : Int), r2)
        | none => none
      else none
termination_by structural fuel _ => fuel

/-- Comma-separated array items. -/
def parseJsonItems : Nat → List Char → Option (List JsonValue × List Char)
  | 0, _ => none
  | fuel + 1, l =>
    match parseJsonVal fuel l with
    | some (v, rest) =>
      match skipJsonWs rest with
      | ',' :: r2 => (parseJsonItems fuel r2).map (fun p => (v :: p.1, p.2))
      | ']' :: r2 => some ([v], r2)
      | _ => none
    | none => none
termination_by structural fuel _ => fuel

/-- Comma-separated object members. -/
def parseJsonMembers : Nat → List Char → Option (List (String × JsonValue) × List Char)
  | 0, _ => none
  | fuel + 1, l =>
    match skipJsonWs l with
    | '"' :: body =>
      match parseStrBody body with
      | some (k, r1) =>
        match skipJsonWs r1 with
        | ':' :: r2 =>
          match parseJsonVal fuel r2 with
          | some (v, r3) =>
            match skipJsonWs r3 with
            | ',' :: r4 =>
              (parseJsonMembers fuel r4).map (fun p => ((String.mk k, v) :: p.1, p.2))
            | '\x7d' :: r4 => some ([(String.mk k, v)], r4)
            | _ => none
          | none => none
        | _ => none
      | none => none
    | _ => none
termination_by structural fuel _ => fuel

end

/-- Model of `JSON.parse`: parses one value and requires the input to be
fully consumed. -/
def jsonParse (s : String) : Option JsonValue :=
  match parseJsonVal (s.data.length + 1) s.data with
  | some (v, rest) => if skipJsonWs rest = [] then some v else none
  | none => none

/-- Result of `parseClaudeArgs` in every builder variant. -/
structure ParsedClaudeArgs where
  mcpConfigs : List String
  allowedTools : List String
  otherArgs : List String
deriving DecidableEq

/-- `toolsStr.split(",").map((t) => t.trim())`. -/
def splitTools (toolsStr : String) : List String :=
  (jsSplitComma toolsStr).map jsTrim

/-- The pass-through condition of the scan loop:
`!arg.startsWith("--verbose") && !arg.includes("output-format")`. -/
def claudePass (arg : String) : Bool :=
  !jsStartsWith arg "--verbose" && !jsIncludes arg "output-format"

/-- `String(value).replace(/"/g, '\\"')`: escape double quotes only. -/
def escapeQuotes (s : String) : String :=
  String.mk (s.data.flatMap (fun c => if c = '"' then ['\\', '"'] else [c]))

/-- `if (additionalMcpConfig) mcpConfigs.push(additionalMcpConfig)`. -/
def optFragment : Option String → List String
  | some a => if a ≠ "" then [a] else []
  | none => []

/-- `if (userCodexArgs?.trim()) { parseShellArgs(userCodexArgs) }`,
keeping only plain string tokens. -/
def optUserTokens : Option String → List String
  | some u => if jsTrim u ≠ "" then parseShellArgs u else []
  | none => []

/-- JavaScript `a || b` on optional environment strings. -/
def jsOrStr : Option String → Option String → Option String
  | some v, b => if v ≠ "" then some v else b
  | none, b => b

/-- Point update of an environment map. -/
def updEnv (e : String → Option String) (k v : String) : String → Option String :=
  fun k' => if k' = k then some v else e k'

/-- `if (x) { env[k] = x }` for an optional string `x`. -/
def setOptTruthy (e : String → Option String) (k : String) (x : Option String) :
    String → Option String :=
  match x with
  | some v => if v ≠ "" then updEnv e k v else e
  | none => e

namespace SharedCodexBuilder

/-- `src/modes/shared/codex-builder.ts`: the `command` push of
`convertMcpConfigToCliArgs`. -/
def commandArgs (serverId : String) (config : JsonValue) : List String :=
  match jsGet config "command" with
  | some v =>
    if v.truthy then
      ["-c", "mcp_servers." ++ serverId ++ ".command=\"" ++ jsToString v ++ "\""]
    else []
  | none => []

/-- The `args` push (`config.args && Array.isArray(config.args)`). -/
def argsArgs (serverId : String) (config : JsonValue) : List String :=
  match jsGet config "args" with
  | some v =>
    if v.truthy ∧ jsIsArray v then
      ["-c", "mcp_servers." ++ serverId ++ ".args=" ++ jsonStringify v]
    else []
  | none => []

/-- The `env` push: a single inline-table assignment, values interpolated
without quote escaping, emitted only when at least one entry exists. -/
def envArgs (serverId : String) (config : JsonValue) : List String :=
  match jsGet config "env" with
  | some v =>
    if v.truthy ∧ jsIsObjectType v then
      if (jsEntries v).isEmpty then []
      else
        ["-c",
          "mcp_servers." ++ serverId ++ ".env = \x7b " ++
            jsJoin ", " ((jsEntries v).map (fun kv => kv.1 ++ "=\"" ++ jsToString kv.2 ++ "\"")) ++
            " \x7d"]
    else []
  | none => []

/-- The `startup_timeout_sec` push (note the spaces around `=`). -/
def startupTimeoutArgs (serverId : String) (config : JsonValue) : List String :=
  match jsGet config "startup_timeout_sec" with
  | some v =>
    if v.truthy then
      ["-c", "mcp_servers." ++ serverId ++ ".startup_timeout_sec = " ++ jsToString v]
    else []
  | none => []

/-- The `tool_timeout_sec` push (note the spaces around `=`). -/
def toolTimeoutArgs (serverId : String) (config : JsonValue) : List String :=
  match jsGet config "tool_timeout_sec" with
  | some v =>
    if v.truthy then
      ["-c", "mcp_servers." ++ serverId ++ ".tool_timeout_sec = " ++ jsToString v]
    else []
  | none => []

/-- One iteration of the server loop in `convertMcpConfigToCliArgs`. -/
def serverArgs (serverId : String) (config : JsonValue) : List String :=
  commandArgs serverId config ++ argsArgs serverId config ++ envArgs serverId config ++
    startupTimeoutArgs serverId config ++ toolTimeoutArgs serverId config

/-- The body of `convertMcpConfigToCliArgs` after a successful parse. -/
def mcpServersArgs (mcpConfig : JsonValue) : List String :=
  match jsGet mcpConfig "mcpServers" with
  | some ms =>
    if ms.truthy then (jsEntries ms).flatMap (fun kv => serverArgs kv.1 kv.2) else []
  | none => []

/-- `convertMcpConfigToCliArgs` of `src/modes/shared/codex-builder.ts`:
a JSON parse failure is caught and contributes no arguments. -/
def convertMcpConfigToCliArgs (mcpConfigJson : String) : List String :=
  match jsonParse mcpConfigJson with
  | some v => mcpServersArgs v
  | none => []

/-- `convertAllowedToolsToCliArgs`: emits the `tools.allowed` assignment. -/
def convertAllowedToolsToCliArgs (tools : List String) : List String :=
  if tools = [] then []
  else ["-c", "tools.allowed=" ++ jsonStringify (.arr (JsonItems.ofList (tools.map JsonValue.str)))]

/-- The scan loop of `parseClaudeArgs` over the token list. -/
def parseClaudeTokens : List String → ParsedClaudeArgs
  | [] => ⟨[], [], []⟩
  | [a] =>
    if claudePass a then ⟨[], [], [a]⟩
    else ⟨[], [], []⟩
  | a :: b :: rest =>
    if a = "--mcp-config" then
      let p := parseClaudeTokens rest
      ⟨b :: p.mcpConfigs, p.allowedTools, p.otherArgs⟩
    else if a = "--allowedTools" then
      let p := parseClaudeTokens rest
      ⟨p.mcpConfigs, splitTools b ++ p.allowedTools, p.otherArgs⟩
    else if claudePass a then
      let p := parseClaudeTokens (b :: rest)
      ⟨p.mcpConfigs, p.allowedTools, a :: p.otherArgs⟩
    else parseClaudeTokens (b :: rest)

/-- `parseClaudeArgs` of `src/modes/shared/codex-builder.ts`. -/
def parseClaudeArgs (claudeArgs : String) : ParsedClaudeArgs :=
  if jsTrim claudeArgs = "" then ⟨[], [], []⟩
  else parseClaudeTokens (parseShellArgs claudeArgs)

/-- The argument list assembled by `buildCodexArgs` before joining. -/
def buildCodexTokens (claudeArgs : String) (additionalMcpConfig userCodexArgs : Option String) :
    List String :=
  ["exec", "--experimental-json", "--dangerously-bypass-approvals-and-sandbox"]
    ++ (((parseClaudeArgs claudeArgs).mcpConfigs ++ optFragment additionalMcpConfig).flatMap
          convertMcpConfigToCliArgs)
    ++ (if (parseClaudeArgs claudeArgs).allowedTools ≠ [] then
          convertAllowedToolsToCliArgs (parseClaudeArgs claudeArgs).allowedTools
        else [])
    ++ (parseClaudeArgs claudeArgs).otherArgs
    ++ optUserTokens userCodexArgs

/-- `buildCodexArgs`: the assembled tokens joined with single spaces. -/
def buildCodexArgs (claudeArgs : String) (additionalMcpConfig userCodexArgs : Option String) :
    String :=
  jsJoin " " (buildCodexTokens claudeArgs additionalMcpConfig userCodexArgs)

/-- `buildCodexEnv` of `src/modes/shared/codex-builder.ts` (starts from an
empty map). -/
def buildCodexEnv (penv : String → Option String) : String → Option String :=
  setOptTruthy
    (setOptTruthy
      (setOptTruthy
        (setOptTruthy (fun _ => none) "OPENAI_API_KEY"
          (jsOrStr (penv "INPUT_OPENAI_API_KEY") (penv "OPENAI_API_KEY")))
        "OPENAI_BASE_URL" (jsOrStr (penv "INPUT_OPENAI_BASE_URL") (penv "OPENAI_BASE_URL")))
      "GITHUB_TOKEN" (penv "GITHUB_TOKEN"))
    "GITHUB_ACTION_INPUTS" (penv "INPUT_ACTION_INPUTS_PRESENT")

end SharedCodexBuilder

namespace CodexBuilderV0

/-- Revision `codex-builder` (per-key env): the `command` push, identical
to the shared builder. -/
def commandArgs (serverId : String) (config : JsonValue) : List String :=
  SharedCodexBuilder.commandArgs serverId config

/-- The `args` push, identical to the shared builder. -/
def argsArgs (serverId : String) (config : JsonValue) : List String :=
  SharedCodexBuilder.argsArgs serverId config

/-- The `env` loop: one assignment per key, with double quotes in the
value escaped. -/
def envArgs (serverId : String) (config : JsonValue) : List String :=
  match jsGet config "env" with
  | some v =>
    if v.truthy ∧ jsIsObjectType v then
      (jsEntries v).flatMap (fun kv =>
        ["-c",
          "mcp_servers." ++ serverId ++ ".env." ++ kv.1 ++ "=\"" ++
            escapeQuotes (jsToString kv.2) ++ "\""])
    else []
  | none => []

/-- The `startup_timeout_sec` push (no spaces around `=`). -/
def startupTimeoutArgs (serverId : String) (config : JsonValue) : List String :=
  match jsGet config "startup_timeout_sec" with
  | some v =>
    if v.truthy then
      ["-c", "mcp_servers." ++ serverId ++ ".startup_timeout_sec=" ++ jsToString v]
    else []
  | none => []

/-- The `tool_timeout_sec` push (no spaces around `=`). -/
def toolTimeoutArgs (serverId : String) (config : JsonValue) : List String :=
  match jsGet config "tool_timeout_sec" with
  | some v =>
    if v.truthy then
      ["-c", "mcp_servers." ++ serverId ++ ".tool_timeout_sec=" ++ jsToString v]
    else []
  | none => []

/-- One iteration of the server loop. -/
def serverArgs (serverId : String) (config : JsonValue) : List String :=
  commandArgs serverId config ++ argsArgs serverId config ++ envArgs serverId config ++
    startupTimeoutArgs serverId config ++ toolTimeoutArgs serverId config

/-- The body of `convertMcpConfigToCliArgs` after a successful parse. -/
def mcpServersArgs (mcpConfig : JsonValue) : List String :=
  match jsGet mcpConfig "mcpServers" with
  | some ms =>
    if ms.truthy then (jsEntries ms).flatMap (fun kv => serverArgs kv.1 kv.2) else []
  | none => []

/-- `convertMcpConfigToCliArgs` of the per-key-env revision. -/
def convertMcpConfigToCliArgs (mcpConfigJson : String) : List String :=
  match jsonParse mcpConfigJson with
  | some v => mcpServersArgs v
  | none => []

/-- The scan loop of `parseClaudeArgs` (this revision guards each push
with a JavaScript truthiness check on the token). -/
def parseClaudeTokens : List String → ParsedClaudeArgs
  | [] => ⟨[], [], []⟩
  | [a] =>
    if claudePass a then
      if a ≠ "" then ⟨[], [], [a]⟩ else ⟨[], [], []⟩
    else ⟨[], [], []⟩
  | a :: b :: rest =>
    if a = "--mcp-config" then
      let p := parseClaudeTokens rest
      ⟨(if b ≠ "" then [b] else []) ++ p.mcpConfigs, p.allowedTools, p.otherArgs⟩
    else if a = "--allowedTools" then
      let p := parseClaudeTokens rest
      ⟨p.mcpConfigs, (if b ≠ "" then splitTools b else []) ++ p.allowedTools, p.otherArgs⟩
    else if claudePass a then
      let p := parseClaudeTokens (b :: rest)
      ⟨p.mcpConfigs, p.allowedTools, (if a ≠ "" then [a] else []) ++ p.otherArgs⟩
    else parseClaudeTokens (b :: rest)

/-- `parseClaudeArgs` of the per-key-env revision. -/
def parseClaudeArgs (claudeArgs : String) : ParsedClaudeArgs :=
  if jsTrim claudeArgs = "" then ⟨[], [], []⟩
  else parseClaudeTokens (parseShellArgs claudeArgs)

/-- The argument list assembled by `buildCodexArgs`: this revision skips
the allowed-tools conversion entirely. -/
def buildCodexTokens (claudeArgs : String) (additionalMcpConfig userCodexArgs : Option String) :
    List String :=
  ["exec", "--experimental-json", "--dangerously-bypass-approvals-and-sandbox"]
    ++ (((parseClaudeArgs claudeArgs).mcpConfigs ++ optFragment additionalMcpConfig).flatMap
          convertMcpConfigToCliArgs)
    ++ (parseClaudeArgs claudeArgs).otherArgs
    ++ optUserTokens userCodexArgs

/-- `buildCodexArgs` of the per-key-env revision. -/
def buildCodexArgs (claudeArgs : String) (additionalMcpConfig userCodexArgs : Option String) :
    String :=
  jsJoin " " (buildCodexTokens claudeArgs additionalMcpConfig userCodexArgs)

end CodexBuilderV0

namespace CodexBuilderV1

/-- Revision `codex-builder` (TOML single-quoted values): the `command`
push, identical to the shared builder. -/
def commandArgs (serverId : String) (config : JsonValue) : List String :=
  SharedCodexBuilder.commandArgs serverId config

/-- The `args` push: the JSON array is wrapped in single quotes. -/
def argsArgs (serverId : String) (config : JsonValue) : List String :=
  match jsGet config "args" with
  | some v =>
    if v.truthy ∧ jsIsArray v then
      ["-c", "mcp_servers." ++ serverId ++ ".args='" ++ jsonStringify v ++ "'"]
    else []
  | none => []

/-- The `env` push: one single-quoted TOML table with quoted keys and
escaped values, emitted only when at least one entry exists. -/
def envArgs (serverId : String) (config : JsonValue) : List String :=
  match jsGet config "env" with
  | some v =>
    if v.truthy ∧ jsIsObjectType v then
      if (jsEntries v).isEmpty then []
      else
        ["-c",
          "mcp_servers." ++ serverId ++ ".env='\x7b " ++
            jsJoin ", "
              ((jsEntries v).map (fun kv =>
                "\"" ++ kv.1 ++ "\" = \"" ++ escapeQuotes (jsToString kv.2) ++ "\"")) ++
            " \x7d'"]
    else []
  | none => []

/-- One iteration of the server loop (timeout pushes as in the per-key
revision, without spaces). -/
def serverArgs (serverId : String) (config : JsonValue) : List String :=
  commandArgs serverId config ++ argsArgs serverId config ++ envArgs serverId config ++
    CodexBuilderV0.startupTimeoutArgs serverId config ++
    CodexBuilderV0.toolTimeoutArgs serverId config

/-- The body of `convertMcpConfigToCliArgs` after a successful parse. -/
def mcpServersArgs (mcpConfig : JsonValue) : List String :=
  match jsGet mcpConfig "mcpServers" with
  | some ms =>
    if ms.truthy then (jsEntries ms).flatMap (fun kv => serverArgs kv.1 kv.2) else []
  | none => []

/-- `convertMcpConfigToCliArgs` of the TOML-value revision. -/
def convertMcpConfigToCliArgs (mcpConfigJson : String) : List String :=
  match jsonParse mcpConfigJson with
  | some v => mcpServersArgs v
  | none => []

/-- `parseClaudeArgs` (textually identical to the per-key revision's). -/
def parseClaudeArgs (claudeArgs : String) : ParsedClaudeArgs :=
  CodexBuilderV0.parseClaudeArgs claudeArgs

/-- The exec-option extraction loop over the user's Codex arguments:
a `--` token that is not one of the two mandatory flags is collected,
optionally together with a following non-dash value token; every other
token is skipped. -/
def extractUserExecOptions : List String → List String
  | [] => []
  | a :: rest =>
    if a = "" then extractUserExecOptions rest
    else if jsStartsWith a "--" ∧ ¬jsStartsWith a "--experimental-json" ∧
        ¬jsStartsWith a "--dangerously" then
      match rest with
      | [] => [a]
      | b :: r2 =>
        if b ≠ "" ∧ ¬jsStartsWith b "-" then a :: b :: extractUserExecOptions r2
        else a :: extractUserExecOptions (b :: r2)
    else extractUserExecOptions rest

/-- The argument list assembled by `buildCodexArgs` of the TOML-value
revision: `exec --full-auto`, then extracted exec options, then the two
mandatory flags and the `env_key` assignment (pushed as one array element
containing a space), then MCP assignments, other arguments, and finally
the quoted prompt. -/
def buildCodexTokens (claudeArgs : String)
    (additionalMcpConfig userCodexArgs prompt : Option String) : List String :=
  ["exec", "--full-auto"]
    ++ extractUserExecOptions (optUserTokens userCodexArgs)
    ++ ["--experimental-json", "--dangerously-bypass-approvals-and-sandbox",
        "-c env_key=OPENAI_API_KEY"]
    ++ (((parseClaudeArgs claudeArgs).mcpConfigs ++ optFragment additionalMcpConfig).flatMap
          convertMcpConfigToCliArgs)
    ++ (parseClaudeArgs claudeArgs).otherArgs
    ++ (match prompt with
        | some p => if p ≠ "" then ["\"" ++ p ++ "\""] else []
        | none => [])

/-- `buildCodexArgs` of the TOML-value revision. -/
def buildCodexArgs (claudeArgs : String)
    (additionalMcpConfig userCodexArgs prompt : Option String) : String :=
  jsJoin " " (buildCodexTokens claudeArgs additionalMcpConfig userCodexArgs prompt)

end CodexBuilderV1

namespace RunCodex

/-- `prepareCodexConfig` argument handling of `base-action/src/run-codex.ts`:
pre-built arguments are re-tokenized; otherwise the fallback list is used. -/
def prepareCodexTokens (codexArgs : Option String) : List String :=
  match codexArgs with
  | some s =>
    if jsTrim s ≠ "" then parseShellArgs s
    else ["exec", "--full-auto", "--experimental-json",
          "--dangerously-bypass-approvals-and-sandbox"]
  | none =>
    ["exec", "--full-auto", "--experimental-json",
     "--dangerously-bypass-approvals-and-sandbox"]

/-- `prepareCodexConfig` environment handling: a copy of the process
environment overlaid with the resolved credentials and pass-through
variables. -/
def prepareCodexEnv (penv : String → Option String) : String → Option String :=
  setOptTruthy
    (setOptTruthy
      (setOptTruthy
        (setOptTruthy penv "OPENAI_API_KEY"
          (jsOrStr (penv "INPUT_OPENAI_API_KEY") (penv "OPENAI_API_KEY")))
        "OPENAI_BASE_URL" (jsOrStr (penv "INPUT_OPENAI_BASE_URL") (penv "OPENAI_BASE_URL")))
      "GITHUB_TOKEN" (penv "GITHUB_TOKEN"))
    "GITHUB_ACTION_INPUTS" (penv "INPUT_ACTION_INPUTS_PRESENT")

/-- `codexProcess.on("close", (code) => resolve(code || 0))`: the exit
code promise resolution, where `none` models a `null` close code. -/
def resolveCloseCode : Option Int → Int
  | none => 0
  | some n => if n ≠ 0 then n else 0

/-- The conclusion reported from the exit code
(`if (exitCode === 0) ... "success" ... else ... "failure"`). -/
def conclusionFor (exitCode : Int) : String :=
  if exitCode = 0 then "success" else "failure"

end RunCodex

/-- An optional member of a configuration object. -/
def optField (name : String) (v : Option JsonValue) : List (String × JsonValue) :=
  match v with
  | some j => [(name, j)]
  | none => []

/-- The JSON value of an `args` array of strings. -/
def strArrJson (l : List String) : JsonValue :=
  .arr (JsonItems.ofList (l.map JsonValue.str))

/-- The JSON value of an `env` table of string pairs. -/
def envJson (es : List (String × String)) : JsonValue :=
  .obj (JsonMembers.ofList (es.map (fun kv => (kv.1, JsonValue.str kv.2))))

/-- A well-formed server record as described by the configuration
schema: optional `command`, `args`, `env` and the two timeout fields. -/
def mkServerConfig (cmd : Option String) (args : Option (List String))
    (env : Option (List (String × String))) (stSec ttSec : Option Int) : JsonValue :=
  .obj (JsonMembers.ofList
    (optField "command" (cmd.map JsonValue.str) ++
     optField "args" (args.map strArrJson) ++
     optField "env" (env.map envJson) ++
     optField "startup_timeout_sec" (stSec.map JsonValue.num) ++
     optField "tool_timeout_sec" (ttSec.map JsonValue.num)))

/-- A well-formed configuration document with the given server map. -/
def mkMcpDoc (servers : List (String × JsonValue)) : JsonValue :=
  .obj (JsonMembers.ofList [("mcpServers", .obj (JsonMembers.ofList servers))])

/-- `JSON.stringify` of an array of strings. -/
def stringifyStrArr (l : List String) : String :=
  jsonStringify (strArrJson l)

/-- The characters of an encoded string array after the opening bracket. -/
def encTail : List String → List Char
  | [] => [']']
  | [s] => '"' :: (escJsonList s.data ++ ['"', ']'])
  | s :: s2 :: t => '"' :: (escJsonList s.data ++ ['"', ','] ++ encTail (s2 :: t))

/-- A character with no special meaning anywhere in the shell grammar:
alphanumeric or one of `-` `_` `.` `=` `,` `/` `:`.  The whitelist
excludes whitespace, quotes, backslashes, operators, `#`, `$` and every
glob character, so a word made of these is tokenized identically by the
model and by the library. -/
def plainChar (c : Char) : Bool :=
  c.isAlphanum || c == '-' || c == '_' || c == '.' || c == '=' || c == ',' || c == '/' ||
    c == ':'

/-- A token that joining and re-tokenizing leaves intact: nonempty and
made of plain characters. -/
def plainToken (t : String) : Bool :=
  !t.data.isEmpty && t.data.all plainChar

/-- A well-formed tool-server configuration fragment used as a concrete
input: one server `g` with command `npx`. -/
def mcpDocNpx : String :=
  "\x7b\"mcpServers\":\x7b\"g\":\x7b\"command\":\"npx\"\x7d\x7d\x7d"

/-- Process environment with both the input-style and the plain API key. -/
def envBothKeys : String → Option String :=
  fun k =>
    if k = "INPUT_OPENAI_API_KEY" then some "input-key"
    else if k = "OPENAI_API_KEY" then some "plain-key"
    else none

/-- Process environment with only the plain API key. -/
def envPlainKeyOnly : String → Option String :=
  fun k => if k = "OPENAI_API_KEY" then some "plain-key" else none

/-- Process environment with no API key at all. -/
def envNoKey : String → Option String :=
  fun _ => none

/-- Claim C1: the shared modes builder does emit a `tools.allowed`
assignment for `--allowedTools Edit,Read`, while the later revision of
the same module (and the repository's own integration test) drop the
restriction: no output token of that revision starts with
`tools.allowed`. -/
theorem c1_shared_builder_emits_tools_allowed :
    "tools.allowed=[\"Edit\",\"Read\"]" ∈
      SharedCodexBuilder.buildCodexTokens "--allowedTools Edit,Read" none none ∧
    (CodexBuilderV1.buildCodexTokens "--allowedTools Edit,Read" none none none).all
      (fun t => ¬jsStartsWith t "tools.allowed") := by
  decide

/-- Claim C3 counterexample: the runner's fallback list for an empty
pre-built argument string is not `exec` plus the two safety flags; it
additionally contains `--full-auto`. -/
theorem c3_runner_fallback_has_full_auto :
    RunCodex.prepareCodexTokens (some "") ≠
      ["exec", "--experimental-json", "--dangerously-bypass-approvals-and-sandbox"] ∧
    RunCodex.prepareCodexTokens (some "") =
      ["exec", "--full-auto", "--experimental-json",
       "--dangerously-bypass-approvals-and-sandbox"] := by
  decide

/-- Claim C4 counterexample: `--mcp-config` as the final token is not
dropped; it is passed through into `otherArgs` and appears in the
translated output. -/
theorem c4_final_flag_not_dropped :
    (SharedCodexBuilder.parseClaudeArgs "--mcp-config").otherArgs = ["--mcp-config"] ∧
    "--mcp-config" ∈ SharedCodexBuilder.buildCodexTokens "--mcp-config" none none := by
  decide

/-- Claim C5 counterexample: for user arguments `--timeout 300 foo` the
extracted exec options land after `exec --full-auto` (not immediately
after the invocation keyword), and the remaining raw token `foo` is
discarded rather than appended. -/
theorem c5_nonoption_user_token_dropped :
    CodexBuilderV1.buildCodexTokens "" none (some "--timeout 300 foo") none =
      ["exec", "--full-auto", "--timeout", "300", "--experimental-json",
       "--dangerously-bypass-approvals-and-sandbox", "-c env_key=OPENAI_API_KEY"] ∧
    "foo" ∉ CodexBuilderV1.buildCodexTokens "" none (some "--timeout 300 foo") none := by
  decide

/-- Claim C6 counterexample: re-tokenizing the joined output does not
reproduce the assembled token list: the quoted command assignment
`mcp_servers.g.command="npx"` loses its double quotes. -/
theorem c6_retokenize_differs :
    parseShellArgs (SharedCodexBuilder.buildCodexArgs "" (some mcpDocNpx) none) ≠
      SharedCodexBuilder.buildCodexTokens "" (some mcpDocNpx) none := by
  decide

/-- Claim C10: a `null` close code is collapsed by `code || 0` to exit
code `0`, which is reported as the conclusion `success`. -/
theorem c10_null_close_code_reports_success :
    RunCodex.resolveCloseCode none = 0 ∧
    RunCodex.conclusionFor (RunCodex.resolveCloseCode none) = "success" := by
  decide

/-- Claim C9: both fixed safety flags appear in every translated output,
for the shared modes builder and for the TOML-value revision alike. -/
theorem c9_safety_flags_always_present (claudeArgs : String)
    (additionalMcpConfig userCodexArgs prompt : Option String) :
    "--experimental-json" ∈
      SharedCodexBuilder.buildCodexTokens claudeArgs additionalMcpConfig userCodexArgs ∧
    "--dangerously-bypass-approvals-and-sandbox" ∈
      SharedCodexBuilder.buildCodexTokens claudeArgs additionalMcpConfig userCodexArgs ∧
    "--experimental-json" ∈
      CodexBuilderV1.buildCodexTokens claudeArgs additionalMcpConfig userCodexArgs prompt ∧
    "--dangerously-bypass-approvals-and-sandbox" ∈
      CodexBuilderV1.buildCodexTokens claudeArgs additionalMcpConfig userCodexArgs prompt := by
  refine ⟨?_, ?_, ?_, ?_⟩ <;>
    simp [SharedCodexBuilder.buildCodexTokens, CodexBuilderV1.buildCodexTokens]

/-- An update under a different key is invisible. -/
theorem setOptTruthy_ne (e : String → Option String) (k : String) (x : Option String)
    (k' : String) (h : k' ≠ k) : setOptTruthy e k x k' = e k' := by
  cases x with
  | none => rfl
  | some v =>
    by_cases hv : v = "" <;> simp [setOptTruthy, updEnv, hv, h]

/-- Claim C7: in the environment map built for the subprocess, the
input-style API key wins over the plain-named one, the plain-named one is
used when it is the only one set, and the key is absent when neither is
set. -/
theorem c7_api_key_precedence (penv : String → Option String) :
    (∀ v w, penv "INPUT_OPENAI_API_KEY" = some v → v ≠ "" →
      penv "OPENAI_API_KEY" = some w →
      RunCodex.prepareCodexEnv penv "OPENAI_API_KEY" = some v) ∧
    (∀ w, penv "INPUT_OPENAI_API_KEY" = none → penv "OPENAI_API_KEY" = some w → w ≠ "" →
      RunCodex.prepareCodexEnv penv "OPENAI_API_KEY" = some w) ∧
    (penv "INPUT_OPENAI_API_KEY" = none → penv "OPENAI_API_KEY" = none →
      RunCodex.prepareCodexEnv penv "OPENAI_API_KEY" = none) := by
  unfold RunCodex.prepareCodexEnv
  rw [setOptTruthy_ne _ _ _ _ (by decide), setOptTruthy_ne _ _ _ _ (by decide),
    setOptTruthy_ne _ _ _ _ (by decide)]
  refine ⟨?_, ?_, ?_⟩
  · intro v w h1 hv h2
    rw [h1]
    simp [jsOrStr, hv, setOptTruthy, updEnv]
  · intro w h1 h2 hw
    rw [h1, h2]
    simp [jsOrStr, hw, setOptTruthy, updEnv]
  · intro h1 h2
    rw [h1, h2]
    simpa [jsOrStr, setOptTruthy] using h2

/-- Claim C7 witness: the three precedence cases at concrete
environments. -/
theorem c7_witness :
    RunCodex.prepareCodexEnv envBothKeys "OPENAI_API_KEY" = some "input-key" ∧
    RunCodex.prepareCodexEnv envPlainKeyOnly "OPENAI_API_KEY" = some "plain-key" ∧
    RunCodex.prepareCodexEnv envNoKey "OPENAI_API_KEY" = none :=
  ⟨(c7_api_key_precedence envBothKeys).1 "input-key" "plain-key" rfl (by decide) rfl,
   (c7_api_key_precedence envPlainKeyOnly).2.1 "plain-key" rfl rfl (by decide),
   (c7_api_key_precedence envNoKey).2.2 rfl rfl⟩

/-- Claim C8: a configuration fragment that fails JSON parsing
contributes zero argument tokens, and passing such a fragment as the
extra configuration leaves the whole translation unchanged (the other
fragments are still translated; the conversion is a total function, so
the translation never raises). -/
theorem c8_malformed_fragment_is_dropped (frag : String) (h : jsonParse frag = none) :
    SharedCodexBuilder.convertMcpConfigToCliArgs frag = [] ∧
    ∀ claudeArgs userCodexArgs,
      SharedCodexBuilder.buildCodexTokens claudeArgs (some frag) userCodexArgs =
        SharedCodexBuilder.buildCodexTokens claudeArgs none userCodexArgs := by
  have hc : SharedCodexBuilder.convertMcpConfigToCliArgs frag = [] := by
    unfold SharedCodexBuilder.convertMcpConfigToCliArgs
    rw [h]
  refine ⟨hc, fun claudeArgs userCodexArgs => ?_⟩
  unfold SharedCodexBuilder.buildCodexTokens
  by_cases hf : frag = ""
  · simp [optFragment, hf]
  · simp [optFragment, hf, hc]

/-- Claim C8 witness: the malformed fragment `oops`. -/
theorem c8_witness :
    SharedCodexBuilder.convertMcpConfigToCliArgs "oops" = [] ∧
    SharedCodexBuilder.buildCodexTokens "" (some "oops") none =
      SharedCodexBuilder.buildCodexTokens "" none none :=
  ⟨(c8_malformed_fragment_is_dropped "oops" rfl).1,
   (c8_malformed_fragment_is_dropped "oops" rfl).2 "" none⟩

/-- Claim C3 as amended: an empty or whitespace-only argument string
translates through the shared modes builder to exactly `exec` plus the
two safety flags, while the runner's fallback list additionally contains
`--full-auto` between `exec` and the safety flags. -/
theorem c3_empty_input_translation :
    (∀ s, jsTrim s = "" → SharedCodexBuilder.buildCodexTokens s none none =
      ["exec", "--experimental-json", "--dangerously-bypass-approvals-and-sandbox"]) ∧
    RunCodex.prepareCodexTokens none =
      ["exec", "--full-auto", "--experimental-json",
       "--dangerously-bypass-approvals-and-sandbox"] ∧
    (∀ s, jsTrim s = "" → RunCodex.prepareCodexTokens (some s) =
      ["exec", "--full-auto", "--experimental-json",
       "--dangerously-bypass-approvals-and-sandbox"]) := by
  refine ⟨fun s hs => ?_, rfl, fun s hs => ?_⟩
  · unfold SharedCodexBuilder.buildCodexTokens SharedCodexBuilder.parseClaudeArgs
    rw [if_pos hs]
    simp [optFragment, optUserTokens]
  · unfold RunCodex.prepareCodexTokens
    simp [hs]

/-- Claim C3 witness: a whitespace-only argument string. -/
theorem c3_witness :
    SharedCodexBuilder.buildCodexTokens " " none none =
      ["exec", "--experimental-json", "--dangerously-bypass-approvals-and-sandbox"] ∧
    RunCodex.prepareCodexTokens (some " ") =
      ["exec", "--full-auto", "--experimental-json",
       "--dangerously-bypass-approvals-and-sandbox"] :=
  ⟨c3_empty_input_translation.1 " " (by decide),
   c3_empty_input_translation.2.2 " " (by decide)⟩

/-- Scanning a token list that contains neither recognized flag and ends
in `--mcp-config`: nothing is captured, the trailing flag joins the
pass-through set. -/
theorem sharedParse_no_flags_append_mcp (ts : List String)
    (hm : "--mcp-config" ∉ ts) (ha : "--allowedTools" ∉ ts) :
    SharedCodexBuilder.parseClaudeTokens (ts ++ ["--mcp-config"]) =
      ⟨[], [], ts.filter claudePass ++ ["--mcp-config"]⟩ := by
  induction ts with
  | nil => decide
  | cons a ts' ih =>
    have hm' : "--mcp-config" ∉ ts' := fun hx => hm (List.mem_cons_of_mem a hx)
    have ha' : "--allowedTools" ∉ ts' := fun hx => ha (List.mem_cons_of_mem a hx)
    have hma : a ≠ "--mcp-config" := by
      intro hx
      exact hm (hx ▸ List.mem_cons_self a ts')
    have haa : a ≠ "--allowedTools" := by
      intro hx
      exact ha (hx ▸ List.mem_cons_self a ts')
    obtain ⟨b, r, hbr⟩ : ∃ b r, ts' ++ ["--mcp-config"] = b :: r := by
      cases ts' with
      | nil => exact ⟨_, _, rfl⟩
      | cons x t => exact ⟨_, _, rfl⟩
    have hrec := ih hm' ha'
    rw [hbr] at hrec
    rw [List.cons_append, hbr]
    by_cases hp : claudePass a
    · simp only [SharedCodexBuilder.parseClaudeTokens, hma, haa, hp, if_true, if_false,
        ite_false, ite_true, hrec]
      simp [List.filter_cons, hp]
    · simp only [SharedCodexBuilder.parseClaudeTokens, hma, haa, hp, hrec]
      simp [List.filter_cons, hp]

/-- Claim C4 as amended: a recognized flag in final position consumes no
nonexistent value and is not captured, but it is not dropped either: it
is passed through into the other-arguments set and appears in the
translated output. -/
theorem c4_trailing_flag_passed_through (s : String) (ts : List String)
    (hs : jsTrim s ≠ "") (htok : parseShellArgs s = ts ++ ["--mcp-config"])
    (hm : "--mcp-config" ∉ ts) (ha : "--allowedTools" ∉ ts) :
    SharedCodexBuilder.parseClaudeArgs s =
      ⟨[], [], ts.filter claudePass ++ ["--mcp-config"]⟩ ∧
    "--mcp-config" ∈ (SharedCodexBuilder.parseClaudeArgs s).otherArgs ∧
    "--mcp-config" ∈ SharedCodexBuilder.buildCodexTokens s none none := by
  have hp : SharedCodexBuilder.parseClaudeArgs s =
      ⟨[], [], ts.filter claudePass ++ ["--mcp-config"]⟩ := by
    unfold SharedCodexBuilder.parseClaudeArgs
    rw [if_neg hs, htok]
    exact sharedParse_no_flags_append_mcp ts hm ha
  refine ⟨hp, ?_, ?_⟩
  · rw [hp]
    simp
  · unfold SharedCodexBuilder.buildCodexTokens
    rw [hp]
    simp

/-- Claim C4 witness: `-a --mcp-config`. -/
theorem c4_witness :
    SharedCodexBuilder.parseClaudeArgs "-a --mcp-config" =
      ⟨[], [], ["-a"].filter claudePass ++ ["--mcp-config"]⟩ ∧
    "--mcp-config" ∈ (SharedCodexBuilder.parseClaudeArgs "-a --mcp-config").otherArgs ∧
    "--mcp-config" ∈ SharedCodexBuilder.buildCodexTokens "-a --mcp-config" none none :=
  c4_trailing_flag_passed_through "-a --mcp-config" ["-a"] (by decide) (by decide)
    (by decide) (by decide)

/-- Claim C5 as amended: exec-level options extracted from the user's
raw arguments are inserted after `exec --full-auto` and before the two
safety flags, and every user token not classified as an exec-level
option (or its value) is discarded: it does not appear anywhere in the
output. -/
theorem c5_exec_options_extracted_rest_dropped (claudeArgs u t : String)
    (hu : jsTrim u ≠ "")
    (hnx : t ∉ CodexBuilderV1.extractUserExecOptions (parseShellArgs u))
    (hnb : t ∉ ["exec", "--full-auto", "--experimental-json",
      "--dangerously-bypass-approvals-and-sandbox", "-c env_key=OPENAI_API_KEY"])
    (hnm : t ∉ (CodexBuilderV1.parseClaudeArgs claudeArgs).mcpConfigs.flatMap
      CodexBuilderV1.convertMcpConfigToCliArgs)
    (hno : t ∉ (CodexBuilderV1.parseClaudeArgs claudeArgs).otherArgs) :
    CodexBuilderV1.buildCodexTokens claudeArgs none (some u) none =
      ["exec", "--full-auto"] ++ CodexBuilderV1.extractUserExecOptions (parseShellArgs u) ++
        ["--experimental-json", "--dangerously-bypass-approvals-and-sandbox",
         "-c env_key=OPENAI_API_KEY"] ++
        (CodexBuilderV1.parseClaudeArgs claudeArgs).mcpConfigs.flatMap
          CodexBuilderV1.convertMcpConfigToCliArgs ++
        (CodexBuilderV1.parseClaudeArgs claudeArgs).otherArgs ∧
    t ∉ CodexBuilderV1.buildCodexTokens claudeArgs none (some u) none := by
  have heq : CodexBuilderV1.buildCodexTokens claudeArgs none (some u) none =
      ["exec", "--full-auto"] ++ CodexBuilderV1.extractUserExecOptions (parseShellArgs u) ++
        ["--experimental-json", "--dangerously-bypass-approvals-and-sandbox",
         "-c env_key=OPENAI_API_KEY"] ++
        (CodexBuilderV1.parseClaudeArgs claudeArgs).mcpConfigs.flatMap
          CodexBuilderV1.convertMcpConfigToCliArgs ++
        (CodexBuilderV1.parseClaudeArgs claudeArgs).otherArgs := by
    unfold CodexBuilderV1.buildCodexTokens
    simp [optUserTokens, optFragment, hu]
  refine ⟨heq, ?_⟩
  rw [heq]
  intro hmem
  simp only [List.mem_append] at hmem
  rcases hmem with ((((h1 | h2) | h3) | h4) | h5)
  · simp only [List.mem_cons, List.not_mem_nil, or_false] at h1
    rcases h1 with rfl | rfl
    · exact hnb (by decide)
    · exact hnb (by decide)
  · exact hnx h2
  · simp only [List.mem_cons, List.not_mem_nil, or_false] at h3
    rcases h3 with rfl | rfl | rfl
    · exact hnb (by decide)
    · exact hnb (by decide)
    · exact hnb (by decide)
  · exact hnm h4
  · exact hno h5

/-- Claim C5 witness: `--timeout 300 foo` with `foo` discarded. -/
theorem c5_witness :
    CodexBuilderV1.buildCodexTokens "" none (some "--timeout 300 foo") none =
      ["exec", "--full-auto"] ++
        CodexBuilderV1.extractUserExecOptions (parseShellArgs "--timeout 300 foo") ++
        ["--experimental-json", "--dangerously-bypass-approvals-and-sandbox",
         "-c env_key=OPENAI_API_KEY"] ++
        (CodexBuilderV1.parseClaudeArgs "").mcpConfigs.flatMap
          CodexBuilderV1.convertMcpConfigToCliArgs ++
        (CodexBuilderV1.parseClaudeArgs "").otherArgs ∧
    "foo" ∉ CodexBuilderV1.buildCodexTokens "" none (some "--timeout 300 foo") none :=
  c5_exec_options_extracted_rest_dropped "" "--timeout 300 foo" "foo" (by decide)
    (by decide) (by decide) (by decide) (by decide)

/-- A whitelisted character is none of the characters the tokenizer
treats specially. -/
theorem plainChar_spec (c : Char) (h : plainChar c = true) :
    isSpaceChar c = false ∧ ¬(c = '\'') ∧ ¬(c = '"') ∧ ¬(c = '\\') ∧ opChar c = false ∧
      ¬(c = '#') := by
  refine ⟨?_, ?_, ?_, ?_, ?_, ?_⟩
  · by_contra hx
    rw [Bool.not_eq_false] at hx
    simp only [isSpaceChar, decide_eq_true_eq] at hx
    rcases hx with h1 | h1 | h1 | h1 | h1 | h1 <;> (subst h1; exact absurd h (by decide))
  · intro h1
    subst h1
    exact absurd h (by decide)
  · intro h1
    subst h1
    exact absurd h (by decide)
  · intro h1
    subst h1
    exact absurd h (by decide)
  · by_contra hx
    rw [Bool.not_eq_false] at hx
    simp only [opChar, Bool.or_eq_true, beq_iff_eq] at hx
    rcases hx with ((((((h1 | h1) | h1) | h1) | h1) | h1) | h1) <;>
      (subst h1; exact absurd h (by decide))
  · intro h1
    subst h1
    exact absurd h (by decide)

/-- Consuming a run of plain characters inside a word up to a space
boundary emits the accumulated token and restarts between words. -/
theorem tokAux_word_space (tl : List Char) (htl : tl.all plainChar = true)
    (cur rest : List Char) :
    tokAux .word (tl ++ ' ' :: rest) cur =
      .str (String.mk (cur ++ tl)) :: tokAux .ready rest [] := by
  induction tl generalizing cur with
  | nil =>
    rw [List.nil_append, tokAux.eq_def]
    simp [show isSpaceChar ' ' = true from by decide]
  | cons c tl' ih =>
    simp only [List.all_cons, Bool.and_eq_true] at htl
    obtain ⟨hc, htl'⟩ := htl
    obtain ⟨hsp, hq1, hq2, hbs, hop, _⟩ := plainChar_spec c hc
    rw [List.cons_append, tokAux.eq_def]
    simp only [hsp, hq1, hq2, hbs, hop, Bool.false_eq_true, if_false, ite_false]
    rw [ih htl' (cur ++ [c])]
    simp

/-- Consuming a trailing run of plain characters emits the accumulated
token at the end of input. -/
theorem tokAux_word_end (tl : List Char) (htl : tl.all plainChar = true) (cur : List Char) :
    tokAux .word tl cur = [.str (String.mk (cur ++ tl))] := by
  induction tl generalizing cur with
  | nil =>
    rw [tokAux.eq_def]
    simp
  | cons c tl' ih =>
    simp only [List.all_cons, Bool.and_eq_true] at htl
    obtain ⟨hc, htl'⟩ := htl
    obtain ⟨hsp, hq1, hq2, hbs, hop, _⟩ := plainChar_spec c hc
    rw [tokAux.eq_def]
    simp only [hsp, hq1, hq2, hbs, hop, Bool.false_eq_true, if_false, ite_false]
    rw [ih htl' (cur ++ [c])]
    simp

/-- The string filter is the identity on a list of plain string
entries. -/
theorem shellStrings_map_str : ∀ l : List String,
    shellStrings (l.map ShellToken.str) = l := by
  intro l
  induction l with
  | nil => rfl
  | cons a t ih =>
    rw [List.map_cons]
    rw [show shellStrings (ShellToken.str a :: List.map ShellToken.str t) =
      a :: shellStrings (List.map ShellToken.str t) from rfl]
    rw [ih]

/-- Joining plain nonempty tokens with single spaces and re-running the
tokenizer returns exactly those tokens as string entries. -/
theorem tokAux_join_plain (ts : List String) (hne : ts ≠ [])
    (h : ∀ t ∈ ts, plainToken t = true) :
    tokAux .ready (jsJoin " " ts).data [] = ts.map ShellToken.str := by
  induction ts with
  | nil => cases hne rfl
  | cons a ts' ih =>
    have ha := h a (List.mem_cons_self a ts')
    obtain ⟨c, cs, hcs⟩ : ∃ c cs, a.data = c :: cs := by
      cases hdata : a.data with
      | nil =>
        rw [plainToken, hdata] at ha
        simp at ha
      | cons c cs => exact ⟨c, cs, rfl⟩
    have ha' := ha
    rw [plainToken, hcs] at ha'
    simp only [List.isEmpty_cons, Bool.not_false, Bool.true_and, List.all_cons,
      Bool.and_eq_true] at ha'
    obtain ⟨hc, hcall⟩ := ha'
    obtain ⟨hsp, hq1, hq2, hbs, hop, hhash⟩ := plainChar_spec c hc
    cases ts' with
    | nil =>
      have hj : jsJoin " " [a] = a := rfl
      rw [hj, hcs, tokAux.eq_def]
      simp only [hsp, hq1, hq2, hbs, hop, hhash, Bool.false_eq_true, if_false, ite_false]
      rw [tokAux_word_end cs hcall [c]]
      rw [show ([c] ++ cs : List Char) = a.data from by rw [hcs]; rfl]
      rfl
    | cons b ts'' =>
      have hjoin : (jsJoin " " (a :: b :: ts'')).data =
          a.data ++ ' ' :: (jsJoin " " (b :: ts'')).data := by
        show (a ++ " " ++ jsJoin " " (b :: ts'')).data = _
        rw [String.data_append, String.data_append, List.append_assoc]
        rfl
      rw [hjoin, hcs, List.cons_append, tokAux.eq_def]
      simp only [hsp, hq1, hq2, hbs, hop, hhash, Bool.false_eq_true, if_false, ite_false]
      rw [tokAux_word_space cs hcall [c]]
      rw [show ([c] ++ cs : List Char) = a.data from by rw [hcs]; rfl]
      have hrec := ih (by simp) (fun t ht => h t (List.mem_cons_of_mem a ht))
      rw [hrec]
      rw [show ShellToken.str (String.mk a.data) = ShellToken.str a from by
        rw [show String.mk a.data = a from rfl]]
      rfl

/-- Joining plain nonempty tokens with single spaces and re-tokenizing
reproduces the token list. -/
theorem parseShellArgs_join_plain (ts : List String) (hne : ts ≠ [])
    (h : ∀ t ∈ ts, plainToken t = true) :
    parseShellArgs (jsJoin " " ts) = ts := by
  unfold parseShellArgs
  rw [tokAux_join_plain ts hne h, shellStrings_map_str]

/-- Claim C6 as amended: when every assembled token is nonempty and made
only of characters with no shell meaning (alphanumerics and `-` `_` `.`
`=` `,` `/` `:`), re-tokenizing the joined output reproduces exactly the
assembled token list; the counterexample shows this fails once a token
carries double quotes, and tokens carrying operator characters or
whitespace are likewise split. -/
theorem c6_roundtrip_for_plain_tokens (claudeArgs : String) (mcp user : Option String)
    (h : ∀ t ∈ SharedCodexBuilder.buildCodexTokens claudeArgs mcp user, plainToken t = true) :
    parseShellArgs (SharedCodexBuilder.buildCodexArgs claudeArgs mcp user) =
      SharedCodexBuilder.buildCodexTokens claudeArgs mcp user := by
  unfold SharedCodexBuilder.buildCodexArgs
  refine parseShellArgs_join_plain _ ?_ h
  simp [SharedCodexBuilder.buildCodexTokens]

/-- Claim C6 witness: a plain-token translation round-trips. -/
theorem c6_witness :
    parseShellArgs (SharedCodexBuilder.buildCodexArgs "-a" none none) =
      SharedCodexBuilder.buildCodexTokens "-a" none none :=
  c6_roundtrip_for_plain_tokens "-a" none none (by decide)

/-- Hex digits below 16 decode back to their value. -/
theorem unHexChar_hexDigit : ∀ q < 16, unHexChar (hexDigit q) = some q := by decide

/-- Decoding inverts the `JSON.stringify` escaping of one character. -/
theorem parseStrBody_escChar (c : Char) (X : List Char) :
    parseStrBody (escJsonChar c ++ X) =
      (parseStrBody X).map (fun p => (c :: p.1, p.2)) := by
  by_cases h1 : c = '"'
  · subst h1
    rw [show escJsonChar '"' = ['\\', '"'] from rfl, List.cons_append, List.cons_append,
      parseStrBody.eq_def]
    simp [unEscChar]
  by_cases h2 : c = '\\'
  · subst h2
    rw [show escJsonChar '\\' = ['\\', '\\'] from rfl, List.cons_append, List.cons_append,
      parseStrBody.eq_def]
    simp [unEscChar]
  by_cases h3 : c = '\n'
  · subst h3
    rw [show escJsonChar '\n' = ['\\', 'n'] from rfl, List.cons_append, List.cons_append,
      parseStrBody.eq_def]
    simp [unEscChar]
  by_cases h4 : c = '\r'
  · subst h4
    rw [show escJsonChar '\r' = ['\\', 'r'] from rfl, List.cons_append, List.cons_append,
      parseStrBody.eq_def]
    simp [unEscChar]
  by_cases h5 : c = '\t'
  · subst h5
    rw [show escJsonChar '\t' = ['\\', 't'] from rfl, List.cons_append, List.cons_append,
      parseStrBody.eq_def]
    simp [unEscChar]
  by_cases h6 : c = '\x08'
  · subst h6
    rw [show escJsonChar '\x08' = ['\\', 'b'] from rfl, List.cons_append, List.cons_append,
      parseStrBody.eq_def]
    simp [unEscChar]
  by_cases h7 : c = '\x0c'
  · subst h7
    rw [show escJsonChar '\x0c' = ['\\', 'f'] from rfl, List.cons_append, List.cons_append,
      parseStrBody.eq_def]
    simp [unEscChar]
  by_cases h8 : c.toNat < 32
  · have hesc : escJsonChar c =
        ['\\', 'u', '0', '0', hexDigit (c.toNat / 16), hexDigit (c.toNat % 16)] := by
      rw [escJsonChar]
      rw [if_neg h1, if_neg h2, if_neg h3, if_neg h4, if_neg h5, if_neg h6, if_neg h7,
        if_pos h8]
    rw [hesc]
    simp only [List.cons_append, List.nil_append]
    rw [parseStrBody.eq_def]
    have hd1 : unHexChar (hexDigit (c.toNat / 16)) = some (c.toNat / 16) :=
      unHexChar_hexDigit _ (by omega)
    have hd2 : unHexChar (hexDigit (c.toNat % 16)) = some (c.toNat % 16) :=
      unHexChar_hexDigit _ (by omega)
    simp only [hd1, hd2]
    show Option.map
        (fun p => (Char.ofNat (((0 * 16 + 0) * 16 + c.toNat / 16) * 16 + c.toNat % 16) :: p.1,
          p.2)) (parseStrBody X) =
      Option.map (fun p => (c :: p.1, p.2)) (parseStrBody X)
    rw [show ((0 * 16 + 0) * 16 + c.toNat / 16) * 16 + c.toNat % 16 = c.toNat from by omega,
      Char.ofNat_toNat]
  · have hesc : escJsonChar c = [c] := by
      rw [escJsonChar]
      rw [if_neg h1, if_neg h2, if_neg h3, if_neg h4, if_neg h5, if_neg h6, if_neg h7,
        if_neg h8]
    rw [hesc, List.cons_append, List.nil_append, parseStrBody.eq_def]
    simp only [h1, h2, if_false, ite_false]

/-- Decoding inverts the escaped body followed by the closing quote. -/
theorem parseStrBody_esc (cs rest : List Char) :
    parseStrBody (escJsonList cs ++ '"' :: rest) = some (cs, rest) := by
  induction cs with
  | nil =>
    rw [show escJsonList [] = [] from rfl, List.nil_append, parseStrBody.eq_def]
    simp
  | cons c cs' ih =>
    rw [show escJsonList (c :: cs') = escJsonChar c ++ escJsonList cs' from by
      simp [escJsonList], List.append_assoc, parseStrBody_escChar, ih]
    rfl

/-- The encoded tail of a nonempty array is at least as long as the
array. -/
theorem encTail_length : ∀ l : List String, l.length ≤ (encTail l).length := by
  intro l
  induction l with
  | nil => simp [encTail]
  | cons s t ih =>
    cases t with
    | nil => simp [encTail]
    | cons s2 t2 =>
      rw [encTail]
      simp only [List.length_cons, List.length_append] at ih ⊢
      omega

/-- Decoding the encoded items of a nonempty string array succeeds given
enough fuel. -/
theorem parseStrArrItems_encTail : ∀ (l : List String) (fuel : Nat), l ≠ [] →
    l.length ≤ fuel → parseStrArrItems fuel (encTail l) = some l := by
  intro l
  induction l with
  | nil => intro fuel h; cases h rfl
  | cons s t ih =>
    intro fuel _ hlen
    cases fuel with
    | zero => simp at hlen
    | succ f =>
      cases t with
      | nil =>
        rw [encTail, parseStrArrItems.eq_def]
        simp [parseStrBody_esc]
      | cons s2 t2 =>
        have hrec := ih f (by simp) (by simp at hlen ⊢; omega)
        rw [encTail, parseStrArrItems.eq_def]
        simp [parseStrBody_esc, hrec]

/-- The rendered items of a nonempty string array, closed by the
bracket, are exactly the encoded tail. -/
theorem stringifyItems_data : ∀ (t : List String) (s : String),
    (jsonStringifyItems (JsonItems.ofList ((s :: t).map JsonValue.str))).data ++ [']'] =
      encTail (s :: t) := by
  intro t
  induction t with
  | nil =>
    intro s
    show (jsonStringify (JsonValue.str s)).data ++ [']'] = encTail [s]
    rw [show jsonStringify (JsonValue.str s) =
      "\"" ++ String.mk (escJsonList s.data) ++ "\"" from rfl]
    rw [String.data_append, String.data_append, encTail]
    simp [show ("\"" : String).data = ['"'] from rfl]
  | cons s2 t2 ih =>
    intro s
    show (jsonStringify (JsonValue.str s) ++ "," ++
      jsonStringifyItems (JsonItems.ofList ((s2 :: t2).map JsonValue.str))).data ++ [']'] =
      encTail (s :: s2 :: t2)
    rw [String.data_append, String.data_append, encTail, ← ih s2]
    rw [show jsonStringify (JsonValue.str s) =
      "\"" ++ String.mk (escJsonList s.data) ++ "\"" from rfl]
    rw [String.data_append, String.data_append]
    simp [show ("\"" : String).data = ['"'] from rfl, show ("," : String).data = [','] from rfl]

/-- The characters of the stringified array are the opening bracket
followed by the encoded tail. -/
theorem stringifyStrArr_data : ∀ l : List String,
    (stringifyStrArr l).data = '[' :: encTail l := by
  intro l
  cases l with
  | nil => rfl
  | cons s t =>
    show ("[" ++ jsonStringifyItems (JsonItems.ofList ((s :: t).map JsonValue.str)) ++ "]").data =
      '[' :: encTail (s :: t)
    rw [String.data_append, String.data_append, List.append_assoc,
      show ("[" : String).data = ['['] from rfl, show ("]" : String).data = [']'] from rfl,
      stringifyItems_data]
    rfl

/-- The emitted `args` assignment value round-trips as a JSON array of
strings. -/
theorem parseStrArr_roundtrip (l : List String) : parseStrArr (stringifyStrArr l) = some l := by
  cases l with
  | nil => rfl
  | cons s t =>
    have hne : encTail (s :: t) ≠ [']'] := by
      cases t <;>
        (rw [encTail]; intro h; injection h with h1 _; exact absurd h1 (by decide))
    unfold parseStrArr
    rw [stringifyStrArr_data]
    simp only [hne, if_false, ite_false]
    exact parseStrArrItems_encTail (s :: t) (encTail (s :: t)).length (by simp)
      (encTail_length (s :: t))

/-- Members round-trip through the list conversion. -/
theorem jsonMembers_toList_ofList : ∀ l : List (String × JsonValue),
    (JsonMembers.ofList l).toList = l := by
  intro l
  induction l with
  | nil => rfl
  | cons kv t ih =>
    obtain ⟨k, v⟩ := kv
    simp [JsonMembers.ofList, JsonMembers.toList, ih]

/-- Flat-mapping over a mapped list composes the functions. -/
theorem flatMapOfMap {α β γ : Type} (f : α → β) (g : β → List γ) (l : List α) :
    (l.map f).flatMap g = l.flatMap (fun a => g (f a)) := by
  induction l with
  | nil => rfl
  | cons a t ih => simp [ih]

/-- Claim C2: for a well-formed server record the per-key-env revision
emits exactly one `command` assignment when present, one `args`
assignment whose value round-trips as a JSON array, one assignment per
`env` key with embedded double quotes escaped, and the timeout
assignments, in that fixed field order; server contributions aggregate
in document order, and `convertMcpConfigToCliArgs` is the same emission
after a successful parse. -/
theorem c2_server_assignments (serverId : String) (cmd : Option String)
    (args : Option (List String)) (env : Option (List (String × String)))
    (stSec ttSec : Option Int)
    (hcmd : cmd ≠ some "") (hst : stSec ≠ some 0) (htt : ttSec ≠ some 0) :
    CodexBuilderV0.serverArgs serverId (mkServerConfig cmd args env stSec ttSec) =
      (match cmd with
       | some c => ["-c", "mcp_servers." ++ serverId ++ ".command=\"" ++ c ++ "\""]
       | none => []) ++
      (match args with
       | some l => ["-c", "mcp_servers." ++ serverId ++ ".args=" ++ stringifyStrArr l]
       | none => []) ++
      (match env with
       | some es => es.flatMap (fun kv =>
           ["-c", "mcp_servers." ++ serverId ++ ".env." ++ kv.1 ++ "=\"" ++
             escapeQuotes kv.2 ++ "\""])
       | none => []) ++
      (match stSec with
       | some n => ["-c", "mcp_servers." ++ serverId ++ ".startup_timeout_sec=" ++ toString n]
       | none => []) ++
      (match ttSec with
       | some n => ["-c", "mcp_servers." ++ serverId ++ ".tool_timeout_sec=" ++ toString n]
       | none => []) ∧
    (∀ l, args = some l → parseStrArr (stringifyStrArr l) = some l) ∧
    (∀ servers : List (String × JsonValue),
      CodexBuilderV0.mcpServersArgs (mkMcpDoc servers) =
        servers.flatMap (fun kv => CodexBuilderV0.serverArgs kv.1 kv.2)) ∧
    (∀ s v, jsonParse s = some v →
      CodexBuilderV0.convertMcpConfigToCliArgs s = CodexBuilderV0.mcpServersArgs v) := by
  have hcmd2 : ∀ c, cmd = some c → ¬(c = "") := fun c hc he => hcmd (by rw [hc, he])
  have hst2 : ∀ n, stSec = some n → ¬(n = 0) := fun n hn he => hst (by rw [hn, he])
  have htt2 : ∀ n, ttSec = some n → ¬(n = 0) := fun n hn he => htt (by rw [hn, he])
  refine ⟨?_, fun l _ => parseStrArr_roundtrip l, fun servers => ?_, fun s v hv => ?_⟩
  · rcases cmd with _ | c <;> rcases args with _ | l <;> rcases env with _ | es <;>
      rcases stSec with _ | n1 <;> rcases ttSec with _ | n2 <;>
      (try have hc := hcmd2 _ rfl) <;> (try have hn1 := hst2 _ rfl) <;>
      (try have hn2 := htt2 _ rfl) <;>
      simp_all [CodexBuilderV0.serverArgs, CodexBuilderV0.commandArgs,
        SharedCodexBuilder.commandArgs, CodexBuilderV0.argsArgs, SharedCodexBuilder.argsArgs,
        CodexBuilderV0.envArgs, CodexBuilderV0.startupTimeoutArgs,
        CodexBuilderV0.toolTimeoutArgs, mkServerConfig, optField, strArrJson, envJson,
        stringifyStrArr, jsGet, fieldLookup, JsonMembers.ofList, JsonValue.truthy, jsIsArray,
        jsIsObjectType, jsToString, jsEntries, jsonMembers_toList_ofList, flatMapOfMap,
        escapeQuotes]
  · simp [CodexBuilderV0.mcpServersArgs, mkMcpDoc, jsGet, fieldLookup, JsonMembers.ofList,
      JsonValue.truthy, jsEntries, jsonMembers_toList_ofList]
  · unfold CodexBuilderV0.convertMcpConfigToCliArgs
    rw [hv]

/-- Claim C2 witness: a concrete server record with command, args, an
env value containing a double quote, and a startup timeout. -/
theorem c2_witness :
    CodexBuilderV0.serverArgs "g"
        (mkServerConfig (some "npx") (some ["-y", "pkg"]) (some [("K", "a\"b")])
          (some 5) none) =
      ["-c", "mcp_servers.g.command=\"npx\""] ++
        ["-c", "mcp_servers.g.args=" ++ stringifyStrArr ["-y", "pkg"]] ++
        [("K", "a\"b")].flatMap (fun kv =>
          ["-c", "mcp_servers.g.env." ++ kv.1 ++ "=\"" ++ escapeQuotes kv.2 ++ "\""]) ++
        ["-c", "mcp_servers.g.startup_timeout_sec=" ++ toString (5 : Int)] ++ [] ∧
    parseStrArr (stringifyStrArr ["-y", "pkg"]) = some ["-y", "pkg"] ∧
    CodexBuilderV0.mcpServersArgs
        (mkMcpDoc [("g", mkServerConfig (some "npx") none none none none)]) =
      [("g", mkServerConfig (some "npx") none none none none)].flatMap
        (fun kv => CodexBuilderV0.serverArgs kv.1 kv.2) ∧
    CodexBuilderV0.convertMcpConfigToCliArgs "\x7b\x7d" =
      CodexBuilderV0.mcpServersArgs (.obj .nil) := by
  obtain ⟨h1, h2, h3, h4⟩ := c2_server_assignments "g" (some "npx") (some ["-y", "pkg"])
    (some [("K", "a\"b")]) (some 5) none (by decide) (by decide) (by decide)
  exact ⟨h1, h2 ["-y", "pkg"] rfl,
    h3 [("g", mkServerConfig (some "npx") none none none none)],
    h4 "\x7b\x7d" (.obj .nil) rfl⟩
